import Mathlib

/-!
Verification development for the ML Studio demo application
(src/ml_studio_app.py) against its natural-language specification.

The source file is UI glue around a model-selection engine (experiment
setup, candidate comparison, finalization, persistence, prediction).
The engine itself is not part of the source tree, so its operations are
modelled from the specification (each such definition carries a doc
comment starting with "Modelled from the spec:").  The prediction form
and session handling are embedded directly from the source.

Numbers are embedded as rationals.  The square root is not rational, so
the RMSE column is represented by the mean squared error: the square
root is strictly monotone, hence ordering a leaderboard by RMSE is the
same as ordering it by MSE, which is what the sortedness theorems state.
-/

set_option allowUnsafeReducibility true

attribute [semireducible] Rat.mul Rat.inv Rat.add Rat.sub

namespace MLStudio

/-- A cell of a dataset frame: numeric, categorical, or an explicit
missing marker. -/
inductive CellValue
  | num (q : ℚ)
  | cat (s : String)
  | missing
  deriving DecidableEq, Repr

/-- A row is keyed by column names (the engine is handed frames whose
rows carry a value, or a missing marker, for every column). -/
abbrev Row := List (String × CellValue)

/-- Look a column up in a row. -/
def rowLookup (r : Row) (c : String) : Option CellValue :=
  List.lookup c r

/-- Modelled from the spec: the Dataset Frame, an ordered sequence of
named columns with one row sequence. -/
structure Frame where
  columns : List String
  rows : List Row
  deriving DecidableEq, Repr

/-- Modelled from the spec: frame invariant — every row has a value (or
an explicit missing marker) for every column. -/
def Frame.wellFormed (fr : Frame) : Prop :=
  ∀ r ∈ fr.rows, ∀ c ∈ fr.columns, (rowLookup r c).isSome

instance (fr : Frame) : Decidable fr.wellFormed := by
  unfold Frame.wellFormed
  exact inferInstance

/-- Modelled from the spec: the error taxonomy of §7. -/
inductive MLError
  | schemaMismatchError
  | noViableModelError
  | corruptArtifactError
  | invalidConfigurationError
  deriving DecidableEq, Repr

/-- Sentinel category used to impute missing categorical values. -/
def missingSentinel : String := "MISSING"

/-- Modelled from the spec: one fitted feature of the Preprocessing
Pipeline — a numeric feature records the training-set mean (for
imputation) and a recorded scale factor; a categorical feature records
its observed fit-time vocabulary. -/
inductive FittedFeature
  | numericF (name : String) (mean : ℚ) (scale : ℚ)
  | categoricalF (name : String) (vocab : List String)
  deriving DecidableEq, Repr

/-- Name of a fitted feature. -/
def FittedFeature.fname : FittedFeature → String
  | .numericF n _ _ => n
  | .categoricalF n _ => n

/-- Modelled from the spec: the Fitted Pipeline, the composition of the
per-feature transformations learned from training data. -/
structure FittedPipeline where
  features : List FittedFeature
  deriving DecidableEq, Repr

/-- Feature kinds recorded in the Feature Schema. -/
inductive FeatureKind
  | numericK
  | categoricalK
  deriving DecidableEq, Repr

/-- Modelled from the spec: one entry of the Feature Schema — inferred
type and, for categorical features, the fit-time vocabulary. -/
structure FeatureSpec where
  name : String
  kind : FeatureKind
  vocab : List String
  deriving DecidableEq, Repr

/-- The schema entry a fitted feature induces. -/
def FittedFeature.toSpec : FittedFeature → FeatureSpec
  | .numericF n _ _ => ⟨n, .numericK, []⟩
  | .categoricalF n v => ⟨n, .categoricalK, v⟩

/-- The Feature Schema derived from a fitted pipeline. -/
def FittedPipeline.schema (p : FittedPipeline) : List FeatureSpec :=
  p.features.map FittedFeature.toSpec

/-- All values observed for one column. -/
def colValues (rows : List Row) (c : String) : List CellValue :=
  rows.filterMap (fun r => rowLookup r c)

/-- Numeric values among a column's cells. -/
def numsOf (vs : List CellValue) : List ℚ :=
  vs.filterMap (fun v =>
    match v with
    | .num q => some q
    | _ => none)

/-- Categorical values among a column's cells; missing markers are
imputed with the sentinel category. -/
def catsOf (vs : List CellValue) : List String :=
  vs.filterMap (fun v =>
    match v with
    | .cat s => some s
    | .missing => some missingSentinel
    | .num _ => none)

/-- A column is inferred categorical when any observed value is
categorical. -/
def isCategoricalCol (vs : List CellValue) : Bool :=
  vs.any (fun v =>
    match v with
    | .cat _ => true
    | _ => false)

/-- Mean of a list of rationals (0 for the empty list). -/
def meanOf (qs : List ℚ) : ℚ :=
  if qs.length = 0 then 0 else qs.sum / (qs.length : ℚ)

/-- Recorded magnitude scale factor of a numeric column (largest
absolute value, 1 when the column carries no magnitude). -/
def scaleOf (qs : List ℚ) : ℚ :=
  let m := qs.foldr (fun q acc => max |q| acc) 0
  if m = 0 then 1 else m

/-- Fit one feature from the training rows. -/
def fitFeature (rows : List Row) (c : String) : FittedFeature :=
  let vs := colValues rows c
  if isCategoricalCol vs then
    .categoricalF c (catsOf vs).dedup
  else
    .numericF c (meanOf (numsOf vs)) (scaleOf (numsOf vs))

/-- The feature columns of a frame: all columns except the target. -/
def featureColumns (fr : Frame) (target : String) : List String :=
  fr.columns.filter (fun c => c ≠ target)

/-- Modelled from the spec: Preprocessing Pipeline fit — derives the
fitted transformation (imputation parameters, category vocabularies,
scale factors) from the training rows, one fitted feature per feature
column, target excluded. -/
def Pipeline.fit (rows : List Row) (featureCols : List String) : FittedPipeline :=
  ⟨featureCols.map (fitFeature rows)⟩

/-- Modelled from the spec: categorical encoding — a category found in
the fit-time vocabulary maps to its index; a category absent from the
vocabulary maps to the designated unknown bucket (index
vocab.length). -/
def encodeCat (vocab : List String) (s : String) : ℚ :=
  match List.indexOf? s vocab with
  | some i => (i : ℚ)
  | none => (vocab.length : ℚ)

/-- Transform one present cell through one fitted feature: numeric
missing values are imputed with the training mean, categorical missing
values with the sentinel category, unseen categories go to the unknown
bucket. -/
def transformCell (f : FittedFeature) (v : CellValue) : ℚ :=
  match f, v with
  | .numericF _ _ _, .num q => q
  | .numericF _ mean _, .cat _ => mean
  | .numericF _ mean _, .missing => mean
  | .categoricalF _ vocab, .cat s => encodeCat vocab s
  | .categoricalF _ vocab, .num _ => encodeCat vocab missingSentinel
  | .categoricalF _ vocab, .missing => encodeCat vocab missingSentinel

/-- Modelled from the spec: row transformation — a row missing a feature
column that existed at fit time is rejected with SchemaMismatchError,
never silently zero-filled; otherwise every feature is encoded. -/
def transformFeatures : List FittedFeature → Row → Except MLError (List ℚ)
  | [], _ => .ok []
  | f :: fs, r =>
    match rowLookup r f.fname with
    | none => .error .schemaMismatchError
    | some v =>
      match transformFeatures fs r with
      | .error e => .error e
      | .ok rest => .ok (transformCell f v :: rest)

/-- Modelled from the spec: FittedPipeline.transform on a single row. -/
def FittedPipeline.transform (p : FittedPipeline) (r : Row) : Except MLError (List ℚ) :=
  transformFeatures p.features r

/-- Transform a list of rows into the numeric design matrix. -/
def designMatrix (p : FittedPipeline) : List Row → Except MLError (List (List ℚ))
  | [] => .ok []
  | r :: rs =>
    match p.transform r with
    | .error e => .error e
    | .ok xs =>
      match designMatrix p rs with
      | .error e => .error e
      | .ok X => .ok (xs :: X)

/-- Modelled from the spec: a Candidate Descriptor of the Candidate
Registry — a unique name, a fallible fitting function (numerical or
convergence failure is the none result) producing fitted model
parameters, and the algorithm family's scoring function. -/
structure CandidateDescriptor where
  cname : String
  fitAlgo : List (List ℚ) → List ℚ → Option (List ℚ)
  predictAlgo : List ℚ → List ℚ → ℚ

/-- Modelled from the spec: the shared validation metric set.  The rmseSq
field carries the squared RMSE (the mean squared error): the square root
is strictly monotone, so every ordering statement about RMSE is stated
on this field. -/
structure Metrics where
  rmseSq : ℚ
  mae : ℚ
  r2 : ℚ
  deriving DecidableEq, Repr

/-- Mean squared error of predictions against actuals. -/
def mseOf (ps ys : List ℚ) : ℚ :=
  meanOf (ps.zipWith (fun p y => (p - y) ^ 2) ys)

/-- Mean absolute error of predictions against actuals. -/
def maeOf (ps ys : List ℚ) : ℚ :=
  meanOf (ps.zipWith (fun p y => |p - y|) ys)

/-- Coefficient of determination (0 when the actuals have no
variance). -/
def r2Of (ps ys : List ℚ) : ℚ :=
  let ybar := meanOf ys
  let ssTot := (ys.map (fun y => (y - ybar) ^ 2)).sum
  let ssRes := (ps.zipWith (fun p y => (p - y) ^ 2) ys).sum
  if ssTot = 0 then 0 else 1 - ssRes / ssTot

/-- Score predictions against validation actuals on the shared metric
set. -/
def scoreMetrics (ps ys : List ℚ) : Metrics :=
  ⟨mseOf ps ys, maeOf ps ys, r2Of ps ys⟩

/-- Modelled from the spec: the sort-metric enumeration RMSE | MAE | R2. -/
inductive SortMetric
  | RMSE
  | MAE
  | R2
  deriving DecidableEq, Repr

/-- Modelled from the spec: the configuration surface of the engine. -/
structure EngineConfig where
  target_column : String
  n_select : ℕ
  sort_metric : SortMetric
  split_seed : ℕ
  split_fraction : ℚ

/-- Modelled from the spec: configuration validity — n_select is at
least 1 and at most the registry size, the target column is a column of
the frame, and the split fraction lies strictly between 0 and 1. -/
def validConfig (registrySize : ℕ) (fr : Frame) (cfg : EngineConfig) : Prop :=
  1 ≤ cfg.n_select ∧ cfg.n_select ≤ registrySize ∧
    cfg.target_column ∈ fr.columns ∧
    0 < cfg.split_fraction ∧ cfg.split_fraction < 1

instance (n : ℕ) (fr : Frame) (cfg : EngineConfig) : Decidable (validConfig n fr cfg) := by
  unfold validConfig
  exact inferInstance

/-- A linear congruential step, the pseudo-random source of the split. -/
def lcg (s : ℕ) : ℕ :=
  (1103515245 * s + 12345) % 2 ^ 31

/-- The i-th pseudo-random key drawn from a seed. -/
def lcgStream (seed : ℕ) : ℕ → ℕ
  | 0 => lcg seed
  | n + 1 => lcg (lcgStream seed n)

/-- Seeded deterministic shuffle: pair each row with the pseudo-random
key of its index and sort by key. -/
def shuffle (seed : ℕ) (rows : List Row) : List Row :=
  ((rows.enum.map (fun p => (lcgStream seed p.1, p.2))).insertionSort
      (fun a b => a.1 ≤ b.1)).map Prod.snd

/-- Number of training rows for a split fraction. -/
def trainCount (f : ℚ) (n : ℕ) : ℕ :=
  (⌊f * (n : ℚ)⌋).toNat

/-- Modelled from the spec: the seeded train/validation split — shuffle
the rows reproducibly from the seed and cut at the split fraction. -/
def trainValSplit (seed : ℕ) (f : ℚ) (rows : List Row) : List Row × List Row :=
  let sh := shuffle seed rows
  (sh.take (trainCount f sh.length), sh.drop (trainCount f sh.length))

/-- The split the engine uses for a configuration and frame. -/
def splitOf (cfg : EngineConfig) (fr : Frame) : List Row × List Row :=
  trainValSplit cfg.split_seed cfg.split_fraction fr.rows

/-- The pipeline the engine fits, on the training partition only. -/
def pipelineOf (cfg : EngineConfig) (fr : Frame) : FittedPipeline :=
  Pipeline.fit (splitOf cfg fr).1 (featureColumns fr cfg.target_column)

/-- Target values of a row list (training labels). -/
def targetValues (rows : List Row) (target : String) : List ℚ :=
  rows.map (fun r =>
    match rowLookup r target with
    | some (.num q) => q
    | _ => 0)

/-- The transformed training and validation data shared by all
candidate fits. -/
structure SplitData where
  Xtr : List (List ℚ)
  ytr : List ℚ
  Xva : List (List ℚ)
  yva : List ℚ
  deriving DecidableEq, Repr

/-- Transformed train/validation data of a run (pipeline fitted on the
training partition only, then applied to both partitions). -/
def dataOf (cfg : EngineConfig) (fr : Frame) : Except MLError SplitData :=
  match designMatrix (pipelineOf cfg fr) (splitOf cfg fr).1 with
  | .error e => .error e
  | .ok Xtr =>
    match designMatrix (pipelineOf cfg fr) (splitOf cfg fr).2 with
    | .error e => .error e
    | .ok Xva =>
      .ok ⟨Xtr, targetValues (splitOf cfg fr).1 cfg.target_column,
        Xva, targetValues (splitOf cfg fr).2 cfg.target_column⟩

/-- Name of the i-th registry candidate. -/
def cnameAt (registry : List CandidateDescriptor) (i : ℕ) : String :=
  ((registry.get? i).map CandidateDescriptor.cname).getD ""

/-- Modelled from the spec: outcome of fitting and scoring the i-th
registry candidate — none when the fit raises a numerical/convergence
failure, otherwise the fitted parameters and validation metrics. -/
def outcomeOf (registry : List CandidateDescriptor) (d : SplitData) (i : ℕ) :
    Option (List ℚ × Metrics) :=
  match registry.get? i with
  | none => none
  | some c =>
    match c.fitAlgo d.Xtr d.ytr with
    | none => none
    | some params => some (params, scoreMetrics (d.Xva.map (c.predictAlgo params)) d.yva)

/-- Modelled from the spec: a Trained Candidate — registry position,
name, fitted parameters and validation metrics. -/
structure TrainedCandidate where
  idx : ℕ
  cname : String
  params : List ℚ
  metrics : Metrics
  deriving DecidableEq, Repr

/-- Modelled from the spec: a Leaderboard Row — candidate identity and
its metric values, null for a candidate whose fit failed. -/
structure LeaderboardRow where
  idx : ℕ
  cname : String
  metrics : Option Metrics
  deriving DecidableEq, Repr

/-- The leaderboard row of a trained candidate. -/
def toRow (tc : TrainedCandidate) : LeaderboardRow :=
  ⟨tc.idx, tc.cname, some tc.metrics⟩

/-- The candidates that fitted successfully, in registry order. -/
def successesOf (registry : List CandidateDescriptor) (d : SplitData) :
    List TrainedCandidate :=
  (List.range registry.length).filterMap (fun i =>
    (outcomeOf registry d i).map (fun pr => ⟨i, cnameAt registry i, pr.1, pr.2⟩))

/-- The null-score rows of candidates whose fit failed, in registry
order. -/
def failuresOf (registry : List CandidateDescriptor) (d : SplitData) :
    List LeaderboardRow :=
  (List.range registry.length).filterMap (fun i =>
    match outcomeOf registry d i with
    | none => some ⟨i, cnameAt registry i, none⟩
    | some _ => none)

/-- Sorting key of the configured metric: RMSE and MAE rank ascending,
R² ranks descending (realized by negating it). -/
def sortKey (m : SortMetric) (mt : Metrics) : ℚ :=
  match m with
  | .RMSE => mt.rmseSq
  | .MAE => mt.mae
  | .R2 => -mt.r2

/-- Ranking order on trained candidates: by the configured metric key,
ties broken by registry order. -/
def rankRel (m : SortMetric) (a b : TrainedCandidate) : Prop :=
  toLex (sortKey m a.metrics, a.idx) ≤ toLex (sortKey m b.metrics, b.idx)

instance (m : SortMetric) : DecidableRel (rankRel m) := fun a b => by
  unfold rankRel
  exact inferInstance

instance (m : SortMetric) : IsTrans TrainedCandidate (rankRel m) :=
  ⟨fun _ _ _ h1 h2 => le_trans h1 h2⟩

instance (m : SortMetric) : IsTotal TrainedCandidate (rankRel m) :=
  ⟨fun _ _ => le_total _ _⟩

/-- Successful candidates ranked by the configured metric. -/
def sortedOf (m : SortMetric) (registry : List CandidateDescriptor) (d : SplitData) :
    List TrainedCandidate :=
  (successesOf registry d).insertionSort (rankRel m)

/-- Modelled from the spec: the full leaderboard — ranked successes
first, then the null-score rows of failed candidates. -/
def leaderboardOf (m : SortMetric) (registry : List CandidateDescriptor) (d : SplitData) :
    List LeaderboardRow :=
  (sortedOf m registry d).map toRow ++ failuresOf registry d

/-- Result of a comparison run: the full leaderboard, the top n_select
trained candidates, and the train/validation partitions used. -/
structure CompareResult where
  leaderboard : List LeaderboardRow
  topk : List TrainedCandidate
  trainPart : List Row
  valPart : List Row
  deriving DecidableEq, Repr

/-- Modelled from the spec: the Comparison Engine — validate the
configuration, split reproducibly from the seed, fit the pipeline on the
training partition only, fit and score every registry candidate, rank
the successes by the configured metric (ties by registry order), record
failed candidates with a null score, and return the leaderboard and the
top n_select candidates; fail with NoViableModelError when every
candidate failed. -/
def compare_models (registry : List CandidateDescriptor) (cfg : EngineConfig)
    (fr : Frame) : Except MLError CompareResult :=
  if validConfig registry.length fr cfg then
    match dataOf cfg fr with
    | .error e => .error e
    | .ok d =>
      if (successesOf registry d).isEmpty then .error .noViableModelError
      else
        .ok ⟨leaderboardOf cfg.sort_metric registry d,
          (sortedOf cfg.sort_metric registry d).take cfg.n_select,
          (splitOf cfg fr).1, (splitOf cfg fr).2⟩
  else .error .invalidConfigurationError

/-- The leaderboard a comparison run exposes for display. -/
def pull (res : CompareResult) : List LeaderboardRow :=
  res.leaderboard

/-- From the source: the experiment seed — the call site fixes
session_id to 123; when no session id is supplied, the ambient random
state of the process provides the seed. -/
def resolveSeed (sessionId : Option ℕ) (ambient : ℕ) : ℕ :=
  match sessionId with
  | some s => s
  | none => ambient

/-- Modelled from the spec: one engine invocation as observed from the
outside — the setup step resolves the split seed from the session id (or
the ambient random state), then the comparison runs. -/
def runComparison (registry : List CandidateDescriptor) (cfg : EngineConfig)
    (fr : Frame) (sessionId : Option ℕ) (ambient : ℕ) :
    Except MLError CompareResult :=
  compare_models registry
    ⟨cfg.target_column, cfg.n_select, cfg.sort_metric,
      resolveSeed sessionId ambient, cfg.split_fraction⟩ fr

/-- Modelled from the spec: the Finalized Bundle — fitted pipeline
trained on the full data, the winning algorithm's name, its finalized
model parameters, the target column name, the feature schema, and the
training timestamp. -/
structure FinalizedBundle where
  pipeline : FittedPipeline
  algo : String
  params : List ℚ
  targetName : String
  schema : List FeatureSpec
  timestamp : ℕ
  deriving DecidableEq, Repr

/-- Modelled from the spec: the Finalizer — re-fits the Preprocessing
Pipeline and the chosen algorithm on the entire dataset (no holdout)
and packages the deployable bundle. -/
def finalize_model (c : CandidateDescriptor) (fr : Frame) (target : String)
    (now : ℕ) : Except MLError FinalizedBundle :=
  match designMatrix (Pipeline.fit fr.rows (featureColumns fr target)) fr.rows with
  | .error e => .error e
  | .ok X =>
    match c.fitAlgo X (targetValues fr.rows target) with
    | none => .error .noViableModelError
    | some params =>
      .ok ⟨Pipeline.fit fr.rows (featureColumns fr target), c.cname, params,
        target, (Pipeline.fit fr.rows (featureColumns fr target)).schema, now⟩

/-- The scoring function the bundle's algorithm name resolves to in the
registry (0 when the name is unknown). -/
def predictWith (registry : List CandidateDescriptor) (name : String)
    (params : List ℚ) (xs : List ℚ) : ℚ :=
  match registry.find? (fun c => c.cname == name) with
  | some c => c.predictAlgo params xs
  | none => 0

/-- Modelled from the spec: the Predictor — applies the bundle's fitted
pipeline transform to each new row, then the finalized model's scoring
function; a pure function of bundle and input rows. -/
def predict_model (registry : List CandidateDescriptor) (b : FinalizedBundle)
    (rows : List Row) : Except MLError (List ℚ) :=
  match designMatrix b.pipeline rows with
  | .error e => .error e
  | .ok X => .ok (X.map (predictWith registry b.algo b.params))

/-- A token of the persisted artifact stream. -/
inductive Tok
  | n (v : ℕ)
  | q (v : ℚ)
  | s (v : String)
  deriving DecidableEq, Repr

/-- Flatten a list of encoded elements. -/
def flatEnc (enc : α → List Tok) (l : List α) : List Tok :=
  l.foldr (fun a acc => enc a ++ acc) []

/-- Length-headed encoding of a list. -/
def encListTok (enc : α → List Tok) (l : List α) : List Tok :=
  .n l.length :: flatEnc enc l

/-- Decode one rational token. -/
def decQ : List Tok → Option (ℚ × List Tok)
  | .q v :: ts => some (v, ts)
  | _ => none

/-- Decode one string token. -/
def decStr : List Tok → Option (String × List Tok)
  | .s v :: ts => some (v, ts)
  | _ => none

/-- Decode a known number of elements. -/
def decListD (dec : List Tok → Option (α × List Tok)) :
    ℕ → List Tok → Option (List α × List Tok)
  | 0, ts => some ([], ts)
  | k + 1, ts =>
    match dec ts with
    | none => none
    | some (a, ts1) =>
      match decListD dec k ts1 with
      | none => none
      | some (as, ts2) => some (a :: as, ts2)

/-- Decode a length-headed list. -/
def decListTok (dec : List Tok → Option (α × List Tok)) (ts : List Tok) :
    Option (List α × List Tok) :=
  match ts with
  | .n k :: r => decListD dec k r
  | _ => none

/-- String encoding used inside list encodings. -/
def encStr (v : String) : List Tok := [.s v]

/-- Rational encoding used inside list encodings. -/
def encQ (v : ℚ) : List Tok := [.q v]

/-- Encode one fitted feature. -/
def encFeature : FittedFeature → List Tok
  | .numericF nm mean scale => [.s nm, .n 0, .q mean, .q scale]
  | .categoricalF nm vocab => .s nm :: .n 1 :: encListTok encStr vocab

/-- Decode one fitted feature. -/
def decFeature : List Tok → Option (FittedFeature × List Tok)
  | .s nm :: .n 0 :: .q mean :: .q scale :: r => some (.numericF nm mean scale, r)
  | .s nm :: .n 1 :: .n k :: r =>
    match decListD decStr k r with
    | none => none
    | some (vocab, r1) => some (.categoricalF nm vocab, r1)
  | _ => none

/-- Encode one feature-schema entry. -/
def encSpec (fs : FeatureSpec) : List Tok :=
  .s fs.name ::
    .n (match fs.kind with
      | .numericK => 0
      | .categoricalK => 1) :: encListTok encStr fs.vocab

/-- Decode one feature-schema entry. -/
def decSpec : List Tok → Option (FeatureSpec × List Tok)
  | .s nm :: .n tag :: .n k :: r =>
    match decListD decStr k r with
    | none => none
    | some (vocab, r1) =>
      match tag with
      | 0 => some (⟨nm, .numericK, vocab⟩, r1)
      | 1 => some (⟨nm, .categoricalK, vocab⟩, r1)
      | _ => none
  | _ => none

/-- The format version tag written into every artifact. -/
def artifactVersion : ℕ := 1

/-- Modelled from the spec: the Model Store's serialization — a
self-describing token stream holding the format version, the bundle
metadata, the model parameters, the fitted pipeline parameters and the
feature schema. -/
def save_model (b : FinalizedBundle) : List Tok :=
  .n artifactVersion :: .s b.algo :: .s b.targetName :: .n b.timestamp ::
    (encListTok encQ b.params ++ encListTok encFeature b.pipeline.features ++
      encListTok encSpec b.schema)

/-- Parse an artifact stream back into a bundle (none on any format
violation, including an unrecognized version tag or trailing data). -/
def parseBundle : List Tok → Option FinalizedBundle
  | .n v :: .s algo :: .s tn :: .n tm :: r =>
    if v = artifactVersion then
      match decListTok decQ r with
      | none => none
      | some (ps, r1) =>
        match decListTok decFeature r1 with
        | none => none
        | some (fs, r2) =>
          match decListTok decSpec r2 with
          | none => none
          | some (sc, r3) =>
            if r3 = [] then some ⟨⟨fs⟩, algo, ps, tn, sc, tm⟩ else none
    else none
  | _ => none

/-- Modelled from the spec: the Model Store's load — reconstructs the
bundle, failing with CorruptArtifactError on an unreadable or
version-incompatible artifact. -/
def load_model (ts : List Tok) : Except MLError FinalizedBundle :=
  match parseBundle ts with
  | some b => .ok b
  | none => .error .corruptArtifactError

/-- From the source: the session state holding the finalized model under
the final_model key. -/
structure AppState where
  final_model : Option FinalizedBundle
  deriving Repr

/-- From the source: the prediction step reads the bundle from the
session state and calls the predictor on one row; it writes nothing back
to the session. -/
def predictStep (registry : List CandidateDescriptor) (s : AppState) (r : Row) :
    Option (Except MLError (List ℚ)) × AppState :=
  match s.final_model with
  | none => (none, s)
  | some b => (some (predict_model registry b [r]), s)

/-- From the source (prediction_form): the request row the manual-entry
form builds from its five fixed fields. -/
def predictionRequest (sq beds baths age : ℚ) (location : String) : Row :=
  [("SquareFt", .num sq), ("Beds", .num beds), ("Baths", .num baths),
    ("Age", .num age), ("Location", .cat location)]

/-- From the source: the fixed field names of the manual-entry form. -/
def formFeatureNames : List String :=
  ["SquareFt", "Beds", "Baths", "Age", "Location"]

/-- From the source: submitting the prediction form builds the fixed
five-column request row from the form values and invokes the predictor
on it. -/
def submitPrediction (registry : List CandidateDescriptor) (s : AppState)
    (sq beds baths age : ℚ) (location : String) :
    Option (Except MLError (List ℚ)) × AppState :=
  predictStep registry s (predictionRequest sq beds baths age location)

/-- The leaderboard ordering of the configured metric, in its proper
direction: RMSE (represented by its square) and MAE ascending, R²
descending. -/
def metricLe (m : SortMetric) (x y : Metrics) : Prop :=
  match m with
  | .RMSE => x.rmseSq ≤ y.rmseSq
  | .MAE => x.mae ≤ y.mae
  | .R2 => y.r2 ≤ x.r2

/-- The leaderboard-row ordering induced by the configured metric (rows
with null scores are unconstrained). -/
def rowLe (m : SortMetric) (a b : LeaderboardRow) : Prop :=
  ∀ x y, a.metrics = some x → b.metrics = some y → metricLe m x y

/-- A registry candidate predicting the training-target mean. -/
def meanCandidate : CandidateDescriptor :=
  ⟨"mean_model", fun _ y => some [meanOf y], fun ps _ => ps.headD 0⟩

/-- A registry candidate predicting the constant zero. -/
def zeroCandidate : CandidateDescriptor :=
  ⟨"zero_model", fun _ _ => some [], fun _ _ => 0⟩

/-- A registry candidate whose fit always raises a numerical failure. -/
def divergingCandidate : CandidateDescriptor :=
  ⟨"diverging_model", fun _ _ => none, fun _ _ => 0⟩

/-- A concrete candidate registry used to evaluate the engine. -/
def defaultRegistry : List CandidateDescriptor :=
  [meanCandidate, zeroCandidate, divergingCandidate]

/-- Concrete dataset row. -/
def rowA : Row :=
  [("SquareFt", .num 1500), ("Location", .cat "City"), ("Price", .num 300)]

/-- Concrete dataset row. -/
def rowB : Row :=
  [("SquareFt", .num 2300), ("Location", .cat "Suburb"), ("Price", .num 410)]

/-- Concrete dataset row. -/
def rowC : Row :=
  [("SquareFt", .num 900), ("Location", .cat "Rural"), ("Price", .num 150)]

/-- Concrete dataset frame with a numeric and a categorical feature. -/
def frW : Frame :=
  ⟨["SquareFt", "Location", "Price"], [rowA, rowB, rowC]⟩

/-- Concrete engine configuration mirroring the source's call
(sort metric RMSE, seed 123). -/
def cfgW : EngineConfig :=
  ⟨"Price", 2, .RMSE, 123, 7 / 10⟩

/-- Concrete configuration whose n_select exceeds the registry size. -/
def cfgBad : EngineConfig :=
  ⟨"Price", 99, .RMSE, 123, 7 / 10⟩

/-- The transformed split data of the concrete run. -/
def dW : SplitData :=
  ((dataOf cfgW frW).toOption).getD ⟨[], [], [], []⟩

/-- The result of the concrete comparison run. -/
def resW : CompareResult :=
  ((compare_models defaultRegistry cfgW frW).toOption).getD ⟨[], [], [], []⟩

/-- The rank-1 trained candidate of the concrete run. -/
def tcW : TrainedCandidate :=
  resW.topk.headD ⟨0, "", [], ⟨0, 0, 0⟩⟩

/-- The descriptor of the rank-1 candidate of the concrete run. -/
def cW : CandidateDescriptor :=
  (defaultRegistry.get? tcW.idx).getD meanCandidate

/-- A concrete pipeline fitted on two rows (vocabulary City, Suburb). -/
def pW : FittedPipeline :=
  Pipeline.fit [rowA, rowB] ["SquareFt", "Location"]

/-- A request row carrying a category unseen at fit time. -/
def rUnknown : Row :=
  [("SquareFt", .num 2000), ("Location", .cat "Village")]

/-- A request row missing the SquareFt feature. -/
def rMissing : Row :=
  [("Location", .cat "City")]

lemma shuffle_perm (seed : ℕ) (rows : List Row) : (shuffle seed rows).Perm rows := by
  unfold shuffle
  have h1 := (List.perm_insertionSort (fun a b : ℕ × Row => a.1 ≤ b.1)
    (rows.enum.map (fun p => (lcgStream seed p.1, p.2)))).map Prod.snd
  refine h1.trans ?_
  rw [List.map_map]
  have h2 : (Prod.snd ∘ fun p : ℕ × Row => (lcgStream seed p.1, p.2)) = Prod.snd := rfl
  rw [h2, List.enum_map_snd]

lemma trainValSplit_append (seed : ℕ) (f : ℚ) (rows : List Row) :
    ((trainValSplit seed f rows).1 ++ (trainValSplit seed f rows).2).Perm rows := by
  show ((shuffle seed rows).take _ ++ (shuffle seed rows).drop _).Perm rows
  rw [List.take_append_drop]
  exact shuffle_perm seed rows

lemma transformFeatures_ok (fs : List FittedFeature) (r : Row)
    (h : ∀ f ∈ fs, (rowLookup r f.fname).isSome) :
    ∃ xs, transformFeatures fs r = .ok xs := by
  induction fs with
  | nil => exact ⟨[], rfl⟩
  | cons f fs ih =>
    obtain ⟨v, hv⟩ := Option.isSome_iff_exists.mp (h f (List.mem_cons_self f fs))
    obtain ⟨xs, hxs⟩ := ih (fun g hg => h g (List.mem_cons_of_mem f hg))
    exact ⟨transformCell f v :: xs, by simp [transformFeatures, hv, hxs]⟩

lemma transformFeatures_missing (fs : List FittedFeature) (r : Row)
    (h : ∃ f ∈ fs, rowLookup r f.fname = none) :
    transformFeatures fs r = .error .schemaMismatchError := by
  induction fs with
  | nil => simp at h
  | cons f fs ih =>
    obtain ⟨g, hg, hnone⟩ := h
    rcases List.mem_cons.mp hg with rfl | hg2
    · simp [transformFeatures, hnone]
    · cases hv : rowLookup r f.fname with
      | none => simp [transformFeatures, hv]
      | some v => simp [transformFeatures, hv, ih ⟨g, hg2, hnone⟩]

lemma transformFeatures_at (fs1 : List FittedFeature) (fs2 : List FittedFeature)
    (f : FittedFeature) (r : Row) (v : CellValue)
    (hall : ∀ g ∈ fs1 ++ f :: fs2, (rowLookup r g.fname).isSome)
    (hv : rowLookup r f.fname = some v) :
    ∃ xs, transformFeatures (fs1 ++ f :: fs2) r = .ok xs ∧
      xs.get? fs1.length = some (transformCell f v) := by
  induction fs1 with
  | nil =>
    obtain ⟨xs, hxs⟩ := transformFeatures_ok fs2 r (fun g hg => hall g (by simp [hg]))
    exact ⟨transformCell f v :: xs, by simp [transformFeatures, hv, hxs], rfl⟩
  | cons g gs ih =>
    obtain ⟨w, hw⟩ := Option.isSome_iff_exists.mp (hall g (by simp))
    obtain ⟨xs, hxs, hget⟩ := ih (fun x hx => hall x (by simp at hx ⊢; tauto))
    refine ⟨transformCell g w :: xs, ?_, ?_⟩
    · simp [transformFeatures, hw, hxs]
    · simpa using hget

lemma fitFeature_fname (rows : List Row) (c : String) :
    (fitFeature rows c).fname = c := by
  cases h : isCategoricalCol (colValues rows c) <;>
    simp [fitFeature, h, FittedFeature.fname]

lemma pipelineFit_mem_names (rows : List Row) (cols : List String)
    (f : FittedFeature) (hf : f ∈ (Pipeline.fit rows cols).features) :
    f.fname ∈ cols := by
  obtain ⟨c, hc, rfl⟩ := List.mem_map.mp hf
  rw [fitFeature_fname]
  exact hc

lemma designMatrix_ok (p : FittedPipeline) (rows : List Row)
    (h : ∀ r ∈ rows, ∃ xs, p.transform r = .ok xs) :
    ∃ X, designMatrix p rows = .ok X := by
  induction rows with
  | nil => exact ⟨[], rfl⟩
  | cons r rs ih =>
    obtain ⟨xs, hxs⟩ := h r (by simp)
    obtain ⟨X, hX⟩ := ih (fun x hx => h x (by simp [hx]))
    exact ⟨xs :: X, by simp [designMatrix, hxs, hX]⟩

lemma transform_ok_of_wellFormed (fr : Frame) (t : String) (hwf : fr.wellFormed)
    (rows : List Row) (r : Row) (hr : r ∈ fr.rows) :
    ∃ xs, (Pipeline.fit rows (featureColumns fr t)).transform r = .ok xs := by
  apply transformFeatures_ok
  intro f hf
  have hname : f.fname ∈ featureColumns fr t := pipelineFit_mem_names rows _ f hf
  exact hwf r hr f.fname (List.mem_of_mem_filter hname)

lemma splitOf_mem_left (cfg : EngineConfig) (fr : Frame) (r : Row)
    (hr : r ∈ (splitOf cfg fr).1) : r ∈ fr.rows :=
  (trainValSplit_append cfg.split_seed cfg.split_fraction fr.rows).mem_iff.mp
    (List.mem_append_left _ hr)

lemma splitOf_mem_right (cfg : EngineConfig) (fr : Frame) (r : Row)
    (hr : r ∈ (splitOf cfg fr).2) : r ∈ fr.rows :=
  (trainValSplit_append cfg.split_seed cfg.split_fraction fr.rows).mem_iff.mp
    (List.mem_append_right _ hr)

lemma dataOf_ok (cfg : EngineConfig) (fr : Frame) (hwf : fr.wellFormed) :
    ∃ d, dataOf cfg fr = .ok d := by
  obtain ⟨X1, h1⟩ := designMatrix_ok (pipelineOf cfg fr) (splitOf cfg fr).1
    (fun r hr => transform_ok_of_wellFormed fr cfg.target_column hwf _ r
      (splitOf_mem_left cfg fr r hr))
  obtain ⟨X2, h2⟩ := designMatrix_ok (pipelineOf cfg fr) (splitOf cfg fr).2
    (fun r hr => transform_ok_of_wellFormed fr cfg.target_column hwf _ r
      (splitOf_mem_right cfg fr r hr))
  exact ⟨⟨X1, targetValues (splitOf cfg fr).1 cfg.target_column,
    X2, targetValues (splitOf cfg fr).2 cfg.target_column⟩, by simp [dataOf, h1, h2]⟩

lemma compare_ok_inv (registry : List CandidateDescriptor) (cfg : EngineConfig)
    (fr : Frame) (res : CompareResult)
    (h : compare_models registry cfg fr = .ok res) :
    validConfig registry.length fr cfg ∧
    ∃ d, dataOf cfg fr = .ok d ∧ ¬(successesOf registry d).isEmpty ∧
      res = ⟨leaderboardOf cfg.sort_metric registry d,
        (sortedOf cfg.sort_metric registry d).take cfg.n_select,
        (splitOf cfg fr).1, (splitOf cfg fr).2⟩ := by
  unfold compare_models at h
  split at h
  next hv =>
    split at h
    next e heq => cases h
    next d heq =>
      split at h
      next he => cases h
      next he =>
        cases h
        exact ⟨hv, d, heq, he, rfl⟩
  next hv => cases h

lemma filterMap_complement_length {α β γ : Type} (l : List α)
    (f : α → Option β) (g : α → Option γ)
    (h : ∀ a ∈ l, f a = none ↔ (g a).isSome) :
    (l.filterMap f).length + (l.filterMap g).length = l.length := by
  induction l with
  | nil => rfl
  | cons a l ih =>
    have ha := h a (by simp)
    have ih2 := ih (fun x hx => h x (by simp [hx]))
    cases hf : f a with
    | none =>
      obtain ⟨c, hc⟩ := Option.isSome_iff_exists.mp (ha.mp hf)
      simp only [List.filterMap_cons, hf, hc, List.length_cons]
      omega
    | some b =>
      have hg : g a = none := by
        cases hgc : g a with
        | none => rfl
        | some c =>
          have := ha.mpr (by simp [hgc])
          simp [hf] at this
      simp only [List.filterMap_cons, hf, hg, List.length_cons]
      omega

lemma successes_failures_length (registry : List CandidateDescriptor) (d : SplitData) :
    (successesOf registry d).length + (failuresOf registry d).length =
      registry.length := by
  unfold successesOf failuresOf
  have h := filterMap_complement_length (List.range registry.length)
    (fun i => (outcomeOf registry d i).map
      (fun pr => (⟨i, cnameAt registry i, pr.1, pr.2⟩ : TrainedCandidate)))
    (fun i =>
      match outcomeOf registry d i with
      | none => some (⟨i, cnameAt registry i, none⟩ : LeaderboardRow)
      | some _ => none)
    (fun i _ => by cases hoc : outcomeOf registry d i <;> simp [hoc])
  simpa using h

lemma leaderboardOf_length (m : SortMetric) (registry : List CandidateDescriptor)
    (d : SplitData) : (leaderboardOf m registry d).length = registry.length := by
  unfold leaderboardOf
  rw [List.length_append, List.length_map]
  have hs : (sortedOf m registry d).length = (successesOf registry d).length :=
    (List.perm_insertionSort (rankRel m) (successesOf registry d)).length_eq
  rw [hs]
  exact successes_failures_length registry d

lemma mem_successes (registry : List CandidateDescriptor) (d : SplitData)
    (tc : TrainedCandidate) (h : tc ∈ successesOf registry d) :
    tc.idx < registry.length ∧
      outcomeOf registry d tc.idx = some (tc.params, tc.metrics) := by
  unfold successesOf at h
  obtain ⟨i, hi, heq⟩ := List.mem_filterMap.mp h
  cases ho : outcomeOf registry d i with
  | none => rw [ho] at heq; cases heq
  | some pr =>
    rw [ho] at heq
    cases heq
    exact ⟨List.mem_range.mp hi, ho⟩

lemma mem_sortedOf (m : SortMetric) (registry : List CandidateDescriptor)
    (d : SplitData) (tc : TrainedCandidate) (h : tc ∈ sortedOf m registry d) :
    tc ∈ successesOf registry d :=
  (List.perm_insertionSort (rankRel m) (successesOf registry d)).mem_iff.mp h

lemma mem_failures (registry : List CandidateDescriptor) (d : SplitData)
    (row : LeaderboardRow) (h : row ∈ failuresOf registry d) :
    row.metrics = none := by
  unfold failuresOf at h
  obtain ⟨i, _, heq⟩ := List.mem_filterMap.mp h
  cases ho : outcomeOf registry d i with
  | none =>
    rw [ho] at heq
    cases heq
    rfl
  | some pr => rw [ho] at heq; cases heq

lemma rankRel_metricLe (m : SortMetric) (a b : TrainedCandidate)
    (h : rankRel m a b) : metricLe m a.metrics b.metrics := by
  unfold rankRel at h
  rw [Prod.Lex.le_iff] at h
  have hk : sortKey m a.metrics ≤ sortKey m b.metrics := by
    rcases h with h | ⟨h, _⟩
    · exact le_of_lt h
    · exact le_of_eq h
  cases m with
  | RMSE => exact hk
  | MAE => exact hk
  | R2 => simpa [sortKey, metricLe, neg_le_neg_iff] using hk

lemma sortedOf_rows_pairwise (m : SortMetric) (registry : List CandidateDescriptor)
    (d : SplitData) : ((sortedOf m registry d).map toRow).Pairwise (rowLe m) := by
  apply List.Pairwise.map
  · intro a b hab x y hx hy
    simp only [toRow, Option.some.injEq] at hx hy
    subst hx
    subst hy
    exact rankRel_metricLe m a b hab
  · exact List.sorted_insertionSort (rankRel m) (successesOf registry d)

lemma decListD_flat {α : Type} (dec : List Tok → Option (α × List Tok))
    (enc : α → List Tok) (h : ∀ a r, dec (enc a ++ r) = some (a, r)) :
    ∀ (l : List α) (r : List Tok),
      decListD dec l.length (flatEnc enc l ++ r) = some (l, r) := by
  intro l
  induction l with
  | nil => intro r; rfl
  | cons a l ih =>
    intro r
    show decListD dec (l.length + 1) ((enc a ++ flatEnc enc l) ++ r) = _
    rw [List.append_assoc]
    simp [decListD, h a (flatEnc enc l ++ r), ih r]

lemma decListTok_enc {α : Type} (dec : List Tok → Option (α × List Tok))
    (enc : α → List Tok) (h : ∀ a r, dec (enc a ++ r) = some (a, r))
    (l : List α) (r : List Tok) :
    decListTok dec (encListTok enc l ++ r) = some (l, r) := by
  show decListTok dec (.n l.length :: (flatEnc enc l ++ r)) = _
  simp [decListTok, decListD_flat dec enc h l r]

lemma decStr_enc (a : String) (r : List Tok) : decStr (encStr a ++ r) = some (a, r) :=
  rfl

lemma decQ_enc (a : ℚ) (r : List Tok) : decQ (encQ a ++ r) = some (a, r) :=
  rfl

lemma decFeature_enc (f : FittedFeature) (r : List Tok) :
    decFeature (encFeature f ++ r) = some (f, r) := by
  cases f with
  | numericF nm mean scale => rfl
  | categoricalF nm vocab =>
    show decFeature (.s nm :: .n 1 :: .n vocab.length :: (flatEnc encStr vocab ++ r)) = _
    simp [decFeature, decListD_flat decStr encStr decStr_enc vocab r]

lemma decSpec_enc (fs : FeatureSpec) (r : List Tok) :
    decSpec (encSpec fs ++ r) = some (fs, r) := by
  cases fs with
  | mk nm kind vocab =>
    cases kind with
    | numericK =>
      show decSpec (.s nm :: .n 0 :: .n vocab.length :: (flatEnc encStr vocab ++ r)) = _
      simp [decSpec, decListD_flat decStr encStr decStr_enc vocab r]
    | categoricalK =>
      show decSpec (.s nm :: .n 1 :: .n vocab.length :: (flatEnc encStr vocab ++ r)) = _
      simp [decSpec, decListD_flat decStr encStr decStr_enc vocab r]

lemma compare_eq_error_of_empty (registry : List CandidateDescriptor)
    (cfg : EngineConfig) (fr : Frame) (d : SplitData)
    (hv : validConfig registry.length fr cfg) (hd : dataOf cfg fr = .ok d)
    (he : (successesOf registry d).isEmpty) :
    compare_models registry cfg fr = .error .noViableModelError := by
  simp only [compare_models, if_pos hv, hd]
  rw [if_pos he]

lemma compare_eq_ok_of_nonempty (registry : List CandidateDescriptor)
    (cfg : EngineConfig) (fr : Frame) (d : SplitData)
    (hv : validConfig registry.length fr cfg) (hd : dataOf cfg fr = .ok d)
    (he : ¬(successesOf registry d).isEmpty) :
    compare_models registry cfg fr =
      .ok ⟨leaderboardOf cfg.sort_metric registry d,
        (sortedOf cfg.sort_metric registry d).take cfg.n_select,
        (splitOf cfg fr).1, (splitOf cfg fr).2⟩ := by
  simp only [compare_models, if_pos hv, hd]
  rw [if_neg he]

lemma successes_empty_iff (registry : List CandidateDescriptor) (d : SplitData) :
    successesOf registry d = [] ↔
      ∀ i < registry.length, outcomeOf registry d i = none := by
  unfold successesOf
  rw [List.filterMap_eq_nil_iff]
  constructor
  · intro h i hi
    exact Option.map_eq_none'.mp (h i (List.mem_range.mpr hi))
  · intro h i hi
    rw [h i (List.mem_range.mp hi)]
    rfl

/-- **C1** For every dataset frame with at least 2 rows and a valid
target column (a valid configuration), the comparison either fails with
NoViableModelError or returns a leaderboard with exactly one row per
registry candidate — the ranked rows first, sorted by the configured
sort metric in its proper direction (RMSE/MAE ascending, R² descending,
per metricLe), then the null-score rows of fatally failed candidates —
and returns the top n_select candidates in that ranked order. -/
theorem compare_leaderboard_spec (registry : List CandidateDescriptor)
    (cfg : EngineConfig) (fr : Frame)
    (hv : validConfig registry.length fr cfg)
    (hwf : fr.wellFormed) (hn : 2 ≤ fr.rows.length) :
    compare_models registry cfg fr = .error .noViableModelError ∨
    ∃ res, compare_models registry cfg fr = .ok res ∧
      res.leaderboard.length = registry.length ∧
      ∃ ranked fails, res.leaderboard = ranked ++ fails ∧
        (∀ row ∈ ranked, row.metrics.isSome) ∧
        (∀ row ∈ fails, row.metrics = none) ∧
        ranked.Pairwise (rowLe cfg.sort_metric) ∧
        res.topk.map toRow = ranked.take cfg.n_select := by
  obtain ⟨d, hd⟩ := dataOf_ok cfg fr hwf
  by_cases he : (successesOf registry d).isEmpty
  · exact Or.inl (compare_eq_error_of_empty registry cfg fr d hv hd he)
  · right
    refine ⟨_, compare_eq_ok_of_nonempty registry cfg fr d hv hd he,
      leaderboardOf_length cfg.sort_metric registry d,
      (sortedOf cfg.sort_metric registry d).map toRow, failuresOf registry d,
      rfl, ?_, ?_, ?_, ?_⟩
    · intro row hrow
      obtain ⟨tc, _, rfl⟩ := List.mem_map.mp hrow
      rfl
    · exact fun row hrow => mem_failures registry d row hrow
    · exact sortedOf_rows_pairwise cfg.sort_metric registry d
    · exact List.map_take toRow (sortedOf cfg.sort_metric registry d) cfg.n_select

/-- Witness for C1 at the concrete frame, registry and configuration. -/
theorem compare_leaderboard_spec_witness :
    validConfig defaultRegistry.length frW cfgW ∧ frW.wellFormed ∧
      2 ≤ frW.rows.length ∧
      (compare_models defaultRegistry cfgW frW = .error .noViableModelError ∨
        ∃ res, compare_models defaultRegistry cfgW frW = .ok res ∧
          res.leaderboard.length = defaultRegistry.length ∧
          ∃ ranked fails, res.leaderboard = ranked ++ fails ∧
            (∀ row ∈ ranked, row.metrics.isSome) ∧
            (∀ row ∈ fails, row.metrics = none) ∧
            ranked.Pairwise (rowLe cfgW.sort_metric) ∧
            res.topk.map toRow = ranked.take cfgW.n_select) :=
  ⟨by decide, by decide, by decide,
    compare_leaderboard_spec defaultRegistry cfgW frW (by decide) (by decide)
      (by decide)⟩

/-- **C2** For every frame, target column, and split seed, two
invocations of the comparison engine with identical inputs (in
particular, the session id the source fixes to 123) produce identical
results — identical train/validation partitions and identical
leaderboard ordering — whatever the ambient random state of either
invocation: the engine is a deterministic function of frame, target and
seed. -/
theorem engine_deterministic (registry : List CandidateDescriptor)
    (cfg : EngineConfig) (fr : Frame) (sid : Option ℕ) (s : ℕ)
    (h : sid = some s) (a1 a2 : ℕ) :
    runComparison registry cfg fr sid a1 = runComparison registry cfg fr sid a2 := by
  subst h
  rfl

/-- Witness for C2 at concrete inputs. -/
theorem engine_deterministic_witness :
    (some 123 : Option ℕ) = some 123 ∧
      runComparison defaultRegistry cfgW frW (some 123) 5 =
        runComparison defaultRegistry cfgW frW (some 123) 99 :=
  ⟨rfl, engine_deterministic defaultRegistry cfgW frW (some 123) 123 rfl 5 99⟩

/-- **C3** During a comparison run (valid configuration, transformed
data available), a candidate whose fit raises a numerical/convergence
error (outcome none) is recorded in the leaderboard with a null score
and excluded from ranking without aborting the run; and the comparison
fails with NoViableModelError exactly when every candidate fails. -/
theorem compare_failure_policy (registry : List CandidateDescriptor)
    (cfg : EngineConfig) (fr : Frame)
    (hv : validConfig registry.length fr cfg) (d : SplitData)
    (hd : dataOf cfg fr = .ok d) :
    (compare_models registry cfg fr = .error .noViableModelError ↔
      ∀ i < registry.length, outcomeOf registry d i = none) ∧
    ∀ i res, i < registry.length → outcomeOf registry d i = none →
      compare_models registry cfg fr = .ok res →
      (∃ row ∈ res.leaderboard, row.idx = i ∧ row.metrics = none) ∧
      (∀ row ∈ res.leaderboard, row.idx = i → row.metrics = none) ∧
      ∀ tc ∈ res.topk, tc.idx ≠ i := by
  constructor
  · constructor
    · intro h
      by_cases he : (successesOf registry d).isEmpty
      · exact (successes_empty_iff registry d).mp (List.isEmpty_iff.mp he)
      · rw [compare_eq_ok_of_nonempty registry cfg fr d hv hd he] at h
        cases h
    · intro hall
      exact compare_eq_error_of_empty registry cfg fr d hv hd
        (by rw [List.isEmpty_iff]; exact (successes_empty_iff registry d).mpr hall)
  · intro i res hi ho hok
    obtain ⟨_, d2, hd2, _, hres⟩ := compare_ok_inv registry cfg fr res hok
    rw [hd] at hd2
    cases hd2
    have hfmem : (⟨i, cnameAt registry i, none⟩ : LeaderboardRow) ∈
        failuresOf registry d := by
      unfold failuresOf
      exact List.mem_filterMap.mpr ⟨i, List.mem_range.mpr hi, by rw [ho]⟩
    refine ⟨?_, ?_, ?_⟩
    · exact ⟨⟨i, cnameAt registry i, none⟩,
        by rw [hres]; exact List.mem_append_right _ hfmem, rfl, rfl⟩
    · intro row hrow hidx
      rw [hres] at hrow
      rcases List.mem_append.mp hrow with hrow | hrow
      · obtain ⟨tc, htc, rfl⟩ := List.mem_map.mp hrow
        have hsucc := (mem_successes registry d tc
          (mem_sortedOf cfg.sort_metric registry d tc htc)).2
        have hidx2 : tc.idx = i := hidx
        rw [hidx2, ho] at hsucc
        cases hsucc
      · exact mem_failures registry d row hrow
    · intro tc htc hidx
      rw [hres] at htc
      have hmem : tc ∈ sortedOf cfg.sort_metric registry d :=
        List.take_subset cfg.n_select _ htc
      have hsucc := (mem_successes registry d tc
        (mem_sortedOf cfg.sort_metric registry d tc hmem)).2
      rw [hidx, ho] at hsucc
      cases hsucc

/-- Witness for C3 at the concrete run; its registry holds a candidate
(index 2, the diverging model) whose fit fails while others succeed. -/
theorem compare_failure_policy_witness :
    validConfig defaultRegistry.length frW cfgW ∧ dataOf cfgW frW = .ok dW ∧
      ((compare_models defaultRegistry cfgW frW = .error .noViableModelError ↔
        ∀ i < defaultRegistry.length, outcomeOf defaultRegistry dW i = none) ∧
      ∀ i res, i < defaultRegistry.length →
        outcomeOf defaultRegistry dW i = none →
        compare_models defaultRegistry cfgW frW = .ok res →
        (∃ row ∈ res.leaderboard, row.idx = i ∧ row.metrics = none) ∧
        (∀ row ∈ res.leaderboard, row.idx = i → row.metrics = none) ∧
        ∀ tc ∈ res.topk, tc.idx ≠ i) :=
  ⟨by decide, by rfl,
    compare_failure_policy defaultRegistry cfgW frW (by decide) dW (by rfl)⟩

/-- **C4** The training and validation partitions of a comparison run
reassemble (as a permutation) into the entire dataset, and the finalize
operation applied to the rank-1 candidate's descriptor re-fits both the
preprocessing pipeline and the chosen algorithm on that entire dataset
(all frame rows, no holdout) and returns the deployable bundle stamped
with the training time. -/
theorem finalize_full_data (registry : List CandidateDescriptor)
    (cfg : EngineConfig) (fr : Frame) (res : CompareResult) (now : ℕ)
    (h : compare_models registry cfg fr = .ok res) :
    (res.trainPart ++ res.valPart).Perm fr.rows ∧
    ∀ tc, res.topk.head? = some tc →
      ∀ c, registry.get? tc.idx = some c →
        ∀ b, finalize_model c fr cfg.target_column now = .ok b →
          b.pipeline = Pipeline.fit fr.rows (featureColumns fr cfg.target_column) ∧
          (∃ X, designMatrix b.pipeline fr.rows = .ok X ∧
            c.fitAlgo X (targetValues fr.rows cfg.target_column) = some b.params) ∧
          b.schema = b.pipeline.schema ∧ b.timestamp = now := by
  obtain ⟨hv, d, hd, hne, hres⟩ := compare_ok_inv registry cfg fr res h
  constructor
  · rw [hres]
    exact trainValSplit_append cfg.split_seed cfg.split_fraction fr.rows
  · intro tc _ c _ b hb
    unfold finalize_model at hb
    split at hb
    next e heq => cases hb
    next X heq =>
      split at hb
      next hfit => cases hb
      next params hfit =>
        cases hb
        exact ⟨rfl, ⟨X, heq, hfit⟩, rfl, rfl⟩

/-- Witness for C4 at the concrete run, finalizing the rank-1 candidate
at timestamp 7. -/
theorem finalize_full_data_witness :
    compare_models defaultRegistry cfgW frW = .ok resW ∧
      ((resW.trainPart ++ resW.valPart).Perm frW.rows ∧
      ∀ tc, resW.topk.head? = some tc →
        ∀ c, defaultRegistry.get? tc.idx = some c →
          ∀ b, finalize_model c frW cfgW.target_column 7 = .ok b →
            b.pipeline =
              Pipeline.fit frW.rows (featureColumns frW cfgW.target_column) ∧
            (∃ X, designMatrix b.pipeline frW.rows = .ok X ∧
              c.fitAlgo X (targetValues frW.rows cfgW.target_column) =
                some b.params) ∧
            b.schema = b.pipeline.schema ∧ b.timestamp = 7) :=
  ⟨by rfl, finalize_full_data defaultRegistry cfgW frW resW 7 (by rfl)⟩

/-- **C5** For every fitted pipeline (hence every finalized bundle built
on it) and every input row containing all fit-time features, a
categorical value absent from the fit-time vocabulary never causes
transform or predict to fail: it is mapped to the designated unknown
bucket (index vocab.length) in the transformed vector, and a numeric
prediction is still produced. -/
theorem unknown_category_safe (registry : List CandidateDescriptor)
    (p : FittedPipeline) (r : Row) (fs1 fs2 : List FittedFeature)
    (nm s : String) (vocab : List String)
    (hfeat : p.features = fs1 ++ FittedFeature.categoricalF nm vocab :: fs2)
    (hall : ∀ f ∈ p.features, (rowLookup r f.fname).isSome)
    (hval : rowLookup r nm = some (.cat s)) (hnew : s ∉ vocab)
    (algo tn : String) (params : List ℚ) (sch : List FeatureSpec) (tm : ℕ) :
    encodeCat vocab s = (vocab.length : ℚ) ∧
    (∃ xs, p.transform r = .ok xs ∧
      xs.get? fs1.length = some ((vocab.length : ℚ))) ∧
    ∃ q, predict_model registry ⟨p, algo, params, tn, sch, tm⟩ [r] = .ok [q] := by
  have henc : encodeCat vocab s = (vocab.length : ℚ) := by
    unfold encodeCat
    have hidx : List.indexOf? s vocab = none := by
      rw [List.indexOf?_eq_none_iff]
      intro x hx
      simp only [beq_iff_eq]
      intro he
      exact hnew (he ▸ hx)
    rw [hidx]
  have hall2 : ∀ g ∈ fs1 ++ FittedFeature.categoricalF nm vocab :: fs2,
      (rowLookup r g.fname).isSome := by
    rw [← hfeat]
    exact hall
  obtain ⟨xs, hxs, hget⟩ := transformFeatures_at fs1 fs2
    (FittedFeature.categoricalF nm vocab) r (.cat s) hall2 hval
  have htr : p.transform r = .ok xs := by
    unfold FittedPipeline.transform
    rw [hfeat]
    exact hxs
  refine ⟨henc, ⟨xs, htr, ?_⟩, ?_⟩
  · rw [hget]
    simp [transformCell, henc]
  · exact ⟨predictWith registry algo params xs,
      by simp [predict_model, designMatrix, htr]⟩

/-- Witness for C5: the concrete pipeline was fitted with vocabulary
City, Suburb; the request row carries the unseen category Village. -/
theorem unknown_category_safe_witness :
    (pW.features = [FittedFeature.numericF "SquareFt" 1900 2300] ++
        FittedFeature.categoricalF "Location" ["City", "Suburb"] :: []) ∧
      (∀ f ∈ pW.features, (rowLookup rUnknown f.fname).isSome) ∧
      rowLookup rUnknown "Location" = some (.cat "Village") ∧
      ("Village" : String) ∉ ["City", "Suburb"] ∧
      (encodeCat ["City", "Suburb"] "Village" =
          ((["City", "Suburb"] : List String).length : ℚ) ∧
        (∃ xs, pW.transform rUnknown = .ok xs ∧
          xs.get? ([FittedFeature.numericF "SquareFt" 1900 2300] :
              List FittedFeature).length =
            some (((["City", "Suburb"] : List String).length : ℚ))) ∧
        ∃ q, predict_model defaultRegistry
            ⟨pW, "mean_model", [355], "Price", [], 0⟩ [rUnknown] = .ok [q]) :=
  ⟨by decide, by decide, by rfl, by decide,
    unknown_category_safe defaultRegistry pW rUnknown
      [FittedFeature.numericF "SquareFt" 1900 2300] [] "Location" "Village"
      ["City", "Suburb"] (by decide) (by decide) (by rfl) (by decide)
      "mean_model" "Price" [355] [] 0⟩

/-- **C6** For every fitted pipeline (hence every finalized bundle built
on it), presenting a row that lacks a feature column which existed at
fit time causes both the transform operation and the predict operation
to fail with SchemaMismatchError; the row is rejected, never silently
zero-filled. -/
theorem missing_feature_rejected (registry : List CandidateDescriptor)
    (p : FittedPipeline) (r : Row) (f : FittedFeature)
    (hf : f ∈ p.features) (hmiss : rowLookup r f.fname = none)
    (algo tn : String) (params : List ℚ) (sch : List FeatureSpec) (tm : ℕ) :
    p.transform r = .error .schemaMismatchError ∧
    predict_model registry ⟨p, algo, params, tn, sch, tm⟩ [r] =
      .error .schemaMismatchError := by
  have htr : p.transform r = .error .schemaMismatchError :=
    transformFeatures_missing p.features r ⟨f, hf, hmiss⟩
  exact ⟨htr, by simp [predict_model, designMatrix, htr]⟩

/-- Witness for C6: the request row lacks the SquareFt feature that
existed at fit time. -/
theorem missing_feature_rejected_witness :
    FittedFeature.numericF "SquareFt" 1900 2300 ∈ pW.features ∧
      rowLookup rMissing (FittedFeature.numericF "SquareFt" 1900 2300).fname =
        none ∧
      (pW.transform rMissing = .error .schemaMismatchError ∧
        predict_model defaultRegistry ⟨pW, "mean_model", [355], "Price", [], 0⟩
          [rMissing] = .error .schemaMismatchError) :=
  ⟨by decide, by rfl,
    missing_feature_rejected defaultRegistry pW rMissing
      (FittedFeature.numericF "SquareFt" 1900 2300) (by decide) (by rfl)
      "mean_model" "Price" [355] [] 0⟩

/-- **C7** For every finalized bundle, loading a saved artifact returns
a bundle equal to the original in all fields (pipeline parameters, model
parameters, feature schema, timestamp): load(save(bundle)) = bundle
(equality on ℚ is exact, so it holds within any floating-point
tolerance). -/
theorem save_load_roundtrip (b : FinalizedBundle) :
    load_model (save_model b) = .ok b := by
  unfold load_model save_model
  rw [List.append_assoc]
  have h1 := decListTok_enc decQ encQ decQ_enc b.params
    (encListTok encFeature b.pipeline.features ++ encListTok encSpec b.schema)
  have h2 := decListTok_enc decFeature encFeature decFeature_enc
    b.pipeline.features (encListTok encSpec b.schema)
  have h3 : decListTok decSpec (encListTok encSpec b.schema) = some (b.schema, []) := by
    rw [← List.append_nil (encListTok encSpec b.schema)]
    exact decListTok_enc decSpec encSpec decSpec_enc b.schema []
  simp [parseBundle, h1, h2, h3]

/-- **C8** The engine accepts the configuration parameters
target_column, n_select, sort_metric, split_seed and split_fraction (the
fields of EngineConfig), and fails with InvalidConfigurationError when
n_select exceeds the registry size or the target column is not a column
of the frame. -/
theorem config_validation (registry : List CandidateDescriptor)
    (cfg : EngineConfig) (fr : Frame)
    (h : registry.length < cfg.n_select ∨ cfg.target_column ∉ fr.columns) :
    compare_models registry cfg fr = .error .invalidConfigurationError := by
  have hnv : ¬validConfig registry.length fr cfg := by
    intro hv
    rcases h with h | h
    · have := hv.2.1
      omega
    · exact h hv.2.2.1
  unfold compare_models
  rw [if_neg hnv]

/-- Witness for C8: n_select = 99 exceeds the three-candidate registry. -/
theorem config_validation_witness :
    (defaultRegistry.length < cfgBad.n_select ∨ cfgBad.target_column ∉ frW.columns) ∧
      compare_models defaultRegistry cfgBad frW = .error .invalidConfigurationError :=
  ⟨Or.inl (by decide),
    config_validation defaultRegistry cfgBad frW (Or.inl (by decide))⟩

/-- **C9** For every session state (hence every finalized bundle it
holds) and every input row, the predict step applied twice to the same
state and the same row yields identical output, and predicting has no
side effect: the session state after the step equals the state before
it (rows, being values, are untouched). -/
theorem predict_idempotent_pure (registry : List CandidateDescriptor)
    (s : AppState) (r : Row) :
    (predictStep registry s r).2 = s ∧
      (predictStep registry (predictStep registry s r).2 r).1 =
        (predictStep registry s r).1 := by
  cases s with
  | mk fm => cases fm <;> simp [predictStep]

/-- **C10** Every prediction request constructed by the program contains
exactly the five features SquareFt, Beds, Baths, Age and Location,
regardless of which columns the model held in the session was actually
trained on: for any session state (any fitted schema) the submit handler
invokes the predictor with this fixed five-column row. -/
theorem prediction_form_fixed_features (registry : List CandidateDescriptor)
    (s : AppState) (sq beds baths age : ℚ) (loc : String) :
    ∃ r : Row, submitPrediction registry s sq beds baths age loc =
        predictStep registry s r ∧
      r.map Prod.fst = formFeatureNames :=
  ⟨predictionRequest sq beds baths age loc, rfl, rfl⟩

end MLStudio
